import Mathlib

/-!
Verification of the orchestration core of the `calc_scrapper` service.

The definitions below are a shallow embedding, translated from the
TypeScript sources:

* `src/services/db.ts`      — durable job store (`fetchAndLockJob`,
  `clearStuckJobs`, `saveScrapedQuestion`, ...)
* `src/worker.ts`           — background worker (`processNextJob`) and the
  admission queue of the streaming controller (`processQueue`,
  `scrapeStreamController`)
* `src/services/scraper.ts` — `ScraperService.scrape` / `ScraperService.abort`
  (cancellation checkpoints, alternatives parsing, resource cleanup)
* `src/utils/text.ts`       — markdown cleaning and title generation,
  plus the worker variant with the per-record insert retry loop

Time stamps are modelled as natural numbers counted in minutes; machine
strings are modelled as `List Char` so that every operation is an
executable structural recursion.
-/

namespace CalcScraper

/-! ## Job store (`src/services/db.ts`) -/

/-- Status column of the `ImportJob` table:
PENDING / PROCESSING / COMPLETED / FAILED. -/
inductive JobStatus where
  | pending
  | processing
  | completed
  | failed
deriving DecidableEq, Repr

/-- One row of the `ImportJob` table.  `payload` stands for the remaining
columns (owner, encrypted credential, logs, ...) that the operations
modelled here never touch.  Times are minutes. -/
structure Job where
  jid : Nat
  status : JobStatus
  createdAt : Nat
  updatedAt : Nat
  payload : Nat
deriving DecidableEq, Repr

/-- A row qualifies for `fetchAndLockJob`'s `SELECT` when its status is
PENDING and it is not row-locked by a concurrent transaction
(`FOR UPDATE SKIP LOCKED`). -/
def isCandidate (locked : List Nat) (j : Job) : Prop :=
  j.status = JobStatus.pending ∧ j.jid ∉ locked

instance (locked : List Nat) (j : Job) : Decidable (isCandidate locked j) := by
  unfold isCandidate
  infer_instance

/-- Model of `ORDER BY "createdAt" ASC LIMIT 1`: the earliest-created row of the
candidate list (first such row on ties). -/
def selectOldest : List Job → Option Job
  | [] => none
  | j :: js =>
    match selectOldest js with
    | none => some j
    | some k => if j.createdAt ≤ k.createdAt then some j else some k

/-- The `UPDATE ... SET status = 'PROCESSING', "updatedAt" = NOW()` applied
to one row. -/
def lockUpdate (now : Nat) (j : Job) : Job :=
  { j with status := JobStatus.processing, updatedAt := now }

/-- Model of `db.fetchAndLockJob` (db.ts lines 25-62): in one transaction, select the
oldest PENDING row skipping rows locked by a concurrent fetch, mark it
PROCESSING with a fresh `updatedAt`, and return the updated row; with no
candidate the transaction commits without touching the store. -/
def fetchAndLockJob (store : List Job) (locked : List Nat) (now : Nat) :
    Option Job × List Job :=
  match selectOldest (store.filter (fun j => decide (isCandidate locked j))) with
  | none => (none, store)
  | some j =>
    (some (lockUpdate now j),
     store.map (fun k => if k.jid = j.jid then lockUpdate now k else k))

/-- Model of `db.clearStuckJobs` (db.ts lines 255-271):
`UPDATE "ImportJob" SET status = 'PENDING', "updatedAt" = NOW()
 WHERE status = 'PROCESSING' AND "updatedAt" < NOW() - INTERVAL '30 minutes'`. -/
def clearStuckJobs (store : List Job) (now : Nat) : List Job :=
  store.map (fun j =>
    if j.status = JobStatus.processing ∧ j.updatedAt + 30 < now
    then { j with status := JobStatus.pending, updatedAt := now }
    else j)

/-! ### Lemmas about the selection step -/

theorem selectOldest_mem : ∀ {l : List Job} {j : Job},
    selectOldest l = some j → j ∈ l := by
  intro l
  induction l with
  | nil => intro j h; simp [selectOldest] at h
  | cons a l ih =>
    intro j h
    simp only [selectOldest] at h
    cases hl : selectOldest l with
    | none =>
      simp [hl] at h
      simp [h]
    | some k =>
      simp only [hl] at h
      by_cases hc : a.createdAt ≤ k.createdAt
      · simp [hc] at h
        simp [h]
      · simp [hc] at h
        subst h
        exact List.mem_cons_of_mem a (ih hl)

theorem selectOldest_min : ∀ {l : List Job} {j : Job},
    selectOldest l = some j → ∀ k ∈ l, j.createdAt ≤ k.createdAt := by
  intro l
  induction l with
  | nil => intro j h; simp [selectOldest] at h
  | cons a l ih =>
    intro j h k hk
    simp only [selectOldest] at h
    cases hl : selectOldest l with
    | none =>
      simp [hl] at h
      subst h
      have : l = [] := by
        cases l with
        | nil => rfl
        | cons b l' =>
          simp only [selectOldest] at hl
          cases hsel : selectOldest l' with
          | none => simp [hsel] at hl
          | some m =>
            simp only [hsel] at hl
            by_cases hc : b.createdAt ≤ m.createdAt
            · simp [hc] at hl
            · simp [hc] at hl
      subst this
      simp at hk
      simp [hk]
    | some m =>
      simp only [hl] at h
      rcases List.mem_cons.mp hk with hka | hk
      · rw [hka]
        by_cases hc : a.createdAt ≤ m.createdAt
        · simp [hc] at h; simp [h]
        · simp [hc] at h; subst h
          exact Nat.le_of_lt (Nat.lt_of_not_le hc)
      · have hm : m.createdAt ≤ k.createdAt := ih hl k hk
        by_cases hc : a.createdAt ≤ m.createdAt
        · simp [hc] at h; subst h
          exact Nat.le_trans hc hm
        · simp [hc] at h; subst h; exact hm

/-- C1.  `fetchAndLockJob` returns `none` and leaves the store unchanged when
no PENDING job exists; otherwise the job it returns is a PENDING job, not
locked by a concurrent fetch, of minimal creation time among such jobs, it
is transitioned to PROCESSING with `updatedAt = now`, and every row with a
different id is carried over into the new store unchanged. -/
theorem fetchAndLockJob_spec (store : List Job) (locked : List Nat) (now : Nat) :
    ((∀ j ∈ store, j.status ≠ JobStatus.pending) →
       fetchAndLockJob store locked now = (none, store)) ∧
    (∀ j' store', fetchAndLockJob store locked now = (some j', store') →
       ∃ j ∈ store,
         j.status = JobStatus.pending ∧
         j.jid ∉ locked ∧
         (∀ k ∈ store, k.status = JobStatus.pending → k.jid ∉ locked →
            j.createdAt ≤ k.createdAt) ∧
         j' = { j with status := JobStatus.processing, updatedAt := now } ∧
         store' = store.map
           (fun k => if k.jid = j.jid
                     then { k with status := JobStatus.processing, updatedAt := now }
                     else k) ∧
         (∀ k ∈ store, k.jid ≠ j.jid → k ∈ store')) := by
  constructor
  · intro hnp
    have hfil : store.filter (fun j => decide (isCandidate locked j)) = [] := by
      apply List.filter_eq_nil_iff.mpr
      intro j hj
      simp only [decide_eq_true_eq]
      intro hc
      exact hnp j hj hc.1
    unfold fetchAndLockJob
    rw [hfil]
    simp [selectOldest]
  · intro j' store' h
    unfold fetchAndLockJob at h
    cases hsel : selectOldest (store.filter (fun j => decide (isCandidate locked j))) with
    | none => rw [hsel] at h; cases h
    | some j =>
      rw [hsel] at h
      have hmem := selectOldest_mem hsel
      have hmin := selectOldest_min hsel
      have hstore : j ∈ store := (List.mem_filter.mp hmem).1
      have hcand : isCandidate locked j := by
        have := (List.mem_filter.mp hmem).2
        simpa using this
      refine ⟨j, hstore, hcand.1, hcand.2, ?_, ?_, ?_, ?_⟩
      · intro k hk hkp hkl
        apply hmin
        exact List.mem_filter.mpr ⟨hk, by simp [isCandidate, hkp, hkl]⟩
      · have := congrArg Prod.fst h
        simpa [lockUpdate] using this.symm
      · have := congrArg Prod.snd h
        simpa [lockUpdate] using this.symm
      · intro k hk hkne
        have h2 := congrArg Prod.snd h
        simp only at h2
        rw [← h2]
        have : (fun k => if k.jid = j.jid then lockUpdate now k else k) k = k := by
          simp [hkne]
        rw [← this]
        exact List.mem_map_of_mem _ hk

/-- Concrete instance of `fetchAndLockJob_spec`: a store with one PENDING job. -/
theorem fetchAndLockJob_spec_witness :
    ∃ j ∈ [Job.mk 1 JobStatus.pending 10 10 0],
      j.status = JobStatus.pending ∧
      j.jid ∉ ([] : List Nat) ∧
      (∀ k ∈ [Job.mk 1 JobStatus.pending 10 10 0],
         k.status = JobStatus.pending → k.jid ∉ ([] : List Nat) →
         j.createdAt ≤ k.createdAt) ∧
      Job.mk 1 JobStatus.processing 10 42 0 =
        { j with status := JobStatus.processing, updatedAt := 42 } ∧
      [Job.mk 1 JobStatus.processing 10 42 0] =
        [Job.mk 1 JobStatus.pending 10 10 0].map
          (fun k => if k.jid = j.jid
                    then { k with status := JobStatus.processing, updatedAt := 42 }
                    else k) ∧
      (∀ k ∈ [Job.mk 1 JobStatus.pending 10 10 0], k.jid ≠ j.jid →
         k ∈ [Job.mk 1 JobStatus.processing 10 42 0]) :=
  (fetchAndLockJob_spec [Job.mk 1 JobStatus.pending 10 10 0] [] 42).2
    (Job.mk 1 JobStatus.processing 10 42 0)
    [Job.mk 1 JobStatus.processing 10 42 0]
    (by decide)

/-- C6.  The stuck-job sweep moves a row from PROCESSING back to PENDING
(with `updatedAt` refreshed) exactly when its last update is more than 30
minutes old, and returns every other row — any other status, or updated
within the last 30 minutes — unchanged in all fields. -/
theorem clearStuckJobs_spec (store : List Job) (now : Nat) :
    (clearStuckJobs store now).length = store.length ∧
    ∀ (i : Nat) (j : Job), store[i]? = some j →
      ((j.status = JobStatus.processing ∧ j.updatedAt + 30 < now) →
         (clearStuckJobs store now)[i]? =
           some { j with status := JobStatus.pending, updatedAt := now }) ∧
      (¬(j.status = JobStatus.processing ∧ j.updatedAt + 30 < now) →
         (clearStuckJobs store now)[i]? = some j) := by
  constructor
  · simp [clearStuckJobs]
  · intro i j hij
    constructor
    · intro hcond
      simp [clearStuckJobs, hij, hcond]
    · intro hcond
      simp [clearStuckJobs, hij, hcond]

/-- Concrete instance of `clearStuckJobs_spec`: a job stuck for 31 minutes is
reset, a job updated 10 minutes ago is untouched. -/
theorem clearStuckJobs_spec_witness :
    (clearStuckJobs
        [Job.mk 1 JobStatus.processing 0 69 0, Job.mk 2 JobStatus.processing 0 90 0]
        100)[0]? =
      some (Job.mk 1 JobStatus.pending 0 100 0) ∧
    (clearStuckJobs
        [Job.mk 1 JobStatus.processing 0 69 0, Job.mk 2 JobStatus.processing 0 90 0]
        100)[1]? =
      some (Job.mk 2 JobStatus.processing 0 90 0) :=
  ⟨(((clearStuckJobs_spec
        [Job.mk 1 JobStatus.processing 0 69 0, Job.mk 2 JobStatus.processing 0 90 0]
        100).2 0 (Job.mk 1 JobStatus.processing 0 69 0) (by decide)).1 (by decide)),
   (((clearStuckJobs_spec
        [Job.mk 1 JobStatus.processing 0 69 0, Job.mk 2 JobStatus.processing 0 90 0]
        100).2 1 (Job.mk 2 JobStatus.processing 0 90 0) (by decide)).2 (by decide))⟩

/-! ## Cancellation and session release (`src/services/scraper.ts`) -/

/-- Outcome of one `ScraperService.scrape` run as seen by its caller:
normal return, an ordinary thrown error, or the distinguished
"Processo cancelado pelo usuário." error. -/
inductive ScrapeOutcome where
  | success
  | failed
  | cancelled
deriving DecidableEq, Repr

/-- How the `try` body of `scrape` ends. -/
inductive BodyExit where
  | completed
  | errored
  | cancelThrown
deriving DecidableEq, Repr

/-- One step of the `try` body of `scrape`, after the browsing session has
been launched:
* `checkpoint` — one of the `if (this.isAborted) throw ...` checks placed
  at phase starts and before/after every exam and question;
* `work ok`   — a navigation/extraction action, which throws when `ok`
  is false;
* `abortCall` — a concurrent invocation of `ScraperService.abort`
  interleaved between steps. -/
inductive ScrapeStep where
  | checkpoint
  | work (ok : Bool)
  | abortCall
deriving DecidableEq, Repr

/-- Fields of `ScraperService` relevant here: whether `this.browser` is
non-null, the `isAborted` flag, and how many times the browser has been
closed (session released). -/
structure ScrapeState where
  browserOpen : Bool
  aborted : Bool
  releases : Nat
deriving DecidableEq, Repr

/-- Model of `ScraperService.abort` (scraper.ts lines 24-33): set `isAborted`, and
when a browser is held close it and null the field. -/
def abortScraper (s : ScrapeState) : ScrapeState :=
  if s.browserOpen
  then { s with aborted := true, browserOpen := false, releases := s.releases + 1 }
  else { s with aborted := true }

/-- Execution of the `try` body: checkpoints throw the cancellation error
when `isAborted` is set; a failing work step throws an ordinary error;
an interleaved `abort` call closes the held session. -/
def runBody : List ScrapeStep → ScrapeState → BodyExit × ScrapeState
  | [], s => (BodyExit.completed, s)
  | ScrapeStep.checkpoint :: rest, s =>
      if s.aborted then (BodyExit.cancelThrown, s) else runBody rest s
  | ScrapeStep.work ok :: rest, s =>
      if ok then runBody rest s else (BodyExit.errored, s)
  | ScrapeStep.abortCall :: rest, s => runBody rest (abortScraper s)

/-- The `finally` block of `scrape` (lines 528-534): close the browser when
it is still held, null the field. -/
def releaseInFinally (s : ScrapeState) : ScrapeState :=
  if s.browserOpen then { s with browserOpen := false, releases := s.releases + 1 }
  else s

/-- Model of `ScraperService.scrape` after the browser launch succeeded:
run the body; the `catch` block re-raises the cancellation error whenever
`isAborted` is set and the original error otherwise; the `finally` block
releases a still-held session.  `abortedBefore` covers an `abort` that
happened before the launch. -/
def scrapeRun (abortedBefore : Bool) (steps : List ScrapeStep) :
    ScrapeOutcome × ScrapeState :=
  let s0 : ScrapeState := { browserOpen := true, aborted := abortedBefore, releases := 0 }
  let r := runBody steps s0
  let outcome :=
    if r.1 = BodyExit.completed then ScrapeOutcome.success
    else if r.2.aborted then ScrapeOutcome.cancelled
    else ScrapeOutcome.failed
  (outcome, releaseInFinally r.2)

/-- The body conserves the quantity `releases + (1 if the browser is held)`:
every close of the session is balanced by the browser field going null. -/
theorem runBody_release_inv : ∀ (steps : List ScrapeStep) (s : ScrapeState),
    (runBody steps s).2.releases +
        (if (runBody steps s).2.browserOpen then 1 else 0) =
      s.releases + (if s.browserOpen then 1 else 0) := by
  intro steps
  induction steps with
  | nil => intro s; simp [runBody]
  | cons step rest ih =>
    intro s
    cases step with
    | checkpoint =>
      by_cases h : s.aborted
      · simp [runBody, h]
      · simp [runBody, h, ih s]
    | work ok =>
      cases ok with
      | true => simp [runBody, ih s]
      | false => simp [runBody]
    | abortCall =>
      rw [show runBody (ScrapeStep.abortCall :: rest) s = runBody rest (abortScraper s)
            from rfl]
      rw [ih (abortScraper s)]
      unfold abortScraper
      by_cases h : s.browserOpen
      · simp [h]
      · simp [h]

/-- The `isAborted` flag is never unset during the body. -/
theorem runBody_aborted_mono : ∀ (steps : List ScrapeStep) (s : ScrapeState),
    s.aborted = true → (runBody steps s).2.aborted = true := by
  intro steps
  induction steps with
  | nil => intro s h; simpa [runBody] using h
  | cons step rest ih =>
    intro s h
    cases step with
    | checkpoint => simp [runBody, h]
    | work ok =>
      cases ok with
      | true => simp [runBody]; exact ih s h
      | false => simpa [runBody] using h
    | abortCall =>
      rw [show runBody (ScrapeStep.abortCall :: rest) s = runBody rest (abortScraper s)
            from rfl]
      apply ih
      unfold abortScraper
      by_cases hb : s.browserOpen
      · simp [hb]
      · simp [hb]

/-- A cancellation exit is only produced with `isAborted` set. -/
theorem runBody_cancel_aborted : ∀ (steps : List ScrapeStep) (s : ScrapeState),
    (runBody steps s).1 = BodyExit.cancelThrown → (runBody steps s).2.aborted = true := by
  intro steps
  induction steps with
  | nil => intro s h; simp [runBody] at h
  | cons step rest ih =>
    intro s h
    cases step with
    | checkpoint =>
      by_cases ha : s.aborted
      · simp [runBody, ha]
      · rw [show runBody (ScrapeStep.checkpoint :: rest) s = runBody rest s from by
              simp [runBody, ha]] at h ⊢
        exact ih s h
    | work ok =>
      cases ok with
      | true =>
        rw [show runBody (ScrapeStep.work true :: rest) s = runBody rest s from by
              simp [runBody]] at h ⊢
        exact ih s h
      | false => simp [runBody] at h
    | abortCall =>
      rw [show runBody (ScrapeStep.abortCall :: rest) s = runBody rest (abortScraper s)
            from rfl] at h ⊢
      exact ih (abortScraper s) h

/-- C3.  For every interleaving of body steps and concurrent aborts, the
acquired browsing session is released exactly once on exit (and the
browser field ends null), on success, failure and cancellation alike; and
whenever the body exits through a cancellation checkpoint the run's
outcome is the distinguished cancelled outcome, not an ordinary failure. -/
theorem scrapeRun_spec (abortedBefore : Bool) (steps : List ScrapeStep) :
    ((scrapeRun abortedBefore steps).2.releases = 1 ∧
     (scrapeRun abortedBefore steps).2.browserOpen = false) ∧
    ((runBody steps
        { browserOpen := true, aborted := abortedBefore, releases := 0 }).1 =
          BodyExit.cancelThrown →
       (scrapeRun abortedBefore steps).1 = ScrapeOutcome.cancelled) := by
  have hinv := runBody_release_inv steps
    { browserOpen := true, aborted := abortedBefore, releases := 0 }
  constructor
  · have hrel : ∀ s1 : ScrapeState,
        s1.releases + (if s1.browserOpen then 1 else 0) = 1 →
        (releaseInFinally s1).releases = 1 ∧ (releaseInFinally s1).browserOpen = false := by
      intro s1 h1
      unfold releaseInFinally
      by_cases hb : s1.browserOpen
      · simp [hb] at h1 ⊢
        omega
      · simp [hb] at h1 ⊢
        exact h1
    have h1 : (runBody steps
          { browserOpen := true, aborted := abortedBefore, releases := 0 }).2.releases +
        (if (runBody steps
          { browserOpen := true, aborted := abortedBefore, releases := 0 }).2.browserOpen
         then 1 else 0) = 1 := by
      simpa using hinv
    simpa [scrapeRun] using hrel _ h1
  · intro hc
    have hab := runBody_cancel_aborted steps
      { browserOpen := true, aborted := abortedBefore, releases := 0 } hc
    simp [scrapeRun, hc, hab]

/-- Concrete instance of `scrapeRun_spec`: an abort lands between two phase
boundaries; the following checkpoint observes it, the outcome is
cancelled and the session is released exactly once. -/
theorem scrapeRun_spec_witness :
    (scrapeRun false
        [ScrapeStep.work true, ScrapeStep.abortCall, ScrapeStep.checkpoint]).1 =
      ScrapeOutcome.cancelled ∧
    (scrapeRun false
        [ScrapeStep.work true, ScrapeStep.abortCall, ScrapeStep.checkpoint]).2.releases = 1 :=
  ⟨(scrapeRun_spec false
      [ScrapeStep.work true, ScrapeStep.abortCall, ScrapeStep.checkpoint]).2 (by decide),
   (scrapeRun_spec false
      [ScrapeStep.work true, ScrapeStep.abortCall, ScrapeStep.checkpoint]).1.1⟩

/-! ## Admission queue (`scrapeStreamController` in `src/worker.ts`) -/

/-- One interactive request: its identity and whether its connection has
already closed (`isClosed`). -/
structure Ticket where
  tid : Nat
  closed : Bool
deriving DecidableEq, Repr

/-- The module-level admission state: `activeScrapes`, the FIFO `queue` of
pending start-thunks, plus the identities of the tasks currently
executing (for bookkeeping; the source tracks these implicitly as the
closures that have passed `activeScrapes++`). -/
structure AdmState where
  active : Nat
  queue : List Ticket
  running : List Nat
deriving DecidableEq, Repr

/-- The bound `MAX_CONCURRENCY = 3` of the controller. -/
def MAX_CONCURRENCY : Nat := 3

/-- Model of `processQueue` (worker.ts lines 170-177), unfolded together with the
head of `startScraping` (lines 223-231): while capacity is free, shift the
head thunk and invoke it; a thunk whose caller already disconnected calls
`processQueue` again immediately, otherwise it increments `activeScrapes`
and starts executing. -/
def processQueueAux (active : Nat) (running : List Nat) :
    List Ticket → AdmState
  | [] => { active := active, queue := [], running := running }
  | t :: rest =>
    if active < MAX_CONCURRENCY then
      if t.closed then processQueueAux active running rest
      else { active := active + 1, queue := rest, running := t.tid :: running }
    else { active := active, queue := t :: rest, running := running }

def processQueue (s : AdmState) : AdmState :=
  processQueueAux s.active s.running s.queue

/-- Model of `startScraping` invoked directly (caller not yet queued). -/
def startScraping (t : Ticket) (s : AdmState) : AdmState :=
  if t.closed then processQueue s
  else { s with active := s.active + 1, running := t.tid :: s.running }

/-- The queue logic at the bottom of the controller (lines 284-293): at
capacity the task is appended to the FIFO list and the caller is told
`queue.length` (its 1-based position); otherwise it is started at once. -/
def arrive (t : Ticket) (s : AdmState) : AdmState × Option Nat :=
  if MAX_CONCURRENCY ≤ s.active then
    ({ s with queue := s.queue ++ [t] }, some (s.queue.length + 1))
  else (startScraping t s, none)

/-- The `finally` block of a running task (lines 264-280): decrement
`activeScrapes` and immediately trigger the next queued task. -/
def completeTask (tid : Nat) (s : AdmState) : AdmState :=
  if tid ∈ s.running then
    processQueue
      { active := s.active - 1, queue := s.queue, running := s.running.erase tid }
  else s

/-- The `close` listener of a still-queued request: its `isClosed` flag is
set; the queue itself is not touched until the thunk is shifted. -/
def disconnectTicket (tid : Nat) (s : AdmState) : AdmState :=
  { s with queue := s.queue.map (fun t => if t.tid = tid then { t with closed := true } else t) }

inductive AdmEvent where
  | arriveEv (tid : Nat) (closedAtArrival : Bool)
  | completeEv (tid : Nat)
  | disconnectEv (tid : Nat)
deriving DecidableEq, Repr

def applyAdmEvent (s : AdmState) (e : AdmEvent) : AdmState :=
  match e with
  | AdmEvent.arriveEv tid c => (arrive { tid := tid, closed := c } s).1
  | AdmEvent.completeEv tid => completeTask tid s
  | AdmEvent.disconnectEv tid => disconnectTicket tid s

/-- The admission state reached from the module's start state (no active
scrape, empty queue) by a sequence of events. -/
def runAdm (evs : List AdmEvent) : AdmState :=
  evs.foldl applyAdmEvent { active := 0, queue := [], running := [] }

/-- Recognizer used to state that a list of events contains no arrival of a
given request identity. -/
def isArriveOf (tid : Nat) : AdmEvent → Bool
  | AdmEvent.arriveEv t _ => t = tid
  | _ => false

theorem processQueueAux_active_le :
    ∀ (q : List Ticket) (active : Nat) (running : List Nat),
      active ≤ MAX_CONCURRENCY →
      (processQueueAux active running q).active ≤ MAX_CONCURRENCY := by
  intro q
  induction q with
  | nil => intro active running h; simpa [processQueueAux] using h
  | cons t rest ih =>
    intro active running h
    by_cases hlt : active < MAX_CONCURRENCY
    · by_cases hc : t.closed
      · simpa [processQueueAux, hlt, hc] using ih active running h
      · simp only [processQueueAux, hlt, if_pos, hc, Bool.false_eq_true, ite_false]
        exact hlt
    · simpa [processQueueAux, hlt] using h

theorem applyAdmEvent_active_le (s : AdmState) (e : AdmEvent)
    (h : s.active ≤ MAX_CONCURRENCY) :
    (applyAdmEvent s e).active ≤ MAX_CONCURRENCY := by
  cases e with
  | arriveEv tid c =>
    by_cases hfull : MAX_CONCURRENCY ≤ s.active
    · simpa [applyAdmEvent, arrive, hfull] using h
    · by_cases hc : c
      · subst hc
        simp only [applyAdmEvent, arrive, hfull, if_false, ite_false, startScraping,
          if_pos]
        exact processQueueAux_active_le s.queue s.active s.running h
      · simp only [Bool.not_eq_true] at hc
        subst hc
        simp only [applyAdmEvent, arrive, hfull, ite_false, startScraping]
        simpa using Nat.lt_of_not_le hfull
  | completeEv tid =>
    by_cases hr : tid ∈ s.running
    · simp only [applyAdmEvent, completeTask, hr, if_pos]
      exact processQueueAux_active_le s.queue (s.active - 1) (s.running.erase tid)
        (Nat.le_trans (Nat.sub_le _ _) h)
    · simpa [applyAdmEvent, completeTask, hr] using h
  | disconnectEv tid => simpa [applyAdmEvent, disconnectTicket] using h

theorem runAdm_active_le_aux :
    ∀ (evs : List AdmEvent) (s : AdmState), s.active ≤ MAX_CONCURRENCY →
      (evs.foldl applyAdmEvent s).active ≤ MAX_CONCURRENCY := by
  intro evs
  induction evs with
  | nil => intro s h; simpa using h
  | cons e rest ih =>
    intro s h
    simp only [List.foldl_cons]
    exact ih (applyAdmEvent s e) (applyAdmEvent_active_le s e h)

/-- C4.  (i) From the start state, no event sequence ever pushes the number
of active interactive scrapes above `MAX_CONCURRENCY = 3`.  (ii) A request
arriving while 3 are active is appended to the FIFO waiting list and told
its 1-based position, and a second request queued right after it is told
the next (strictly greater) position.  (iii) When a running task completes
while the waiting list has a non-disconnected head, that head is started:
it leaves the queue, begins running, and the active count is back at 3. -/
theorem admissionQueue_spec (evs : List AdmEvent) (s : AdmState)
    (t1 t2 : Ticket) (tid : Nat) (t : Ticket) (rest : List Ticket)
    (running : List Nat) :
    (runAdm evs).active ≤ 3 ∧
    (s.active = 3 →
       arrive t1 s = ({ s with queue := s.queue ++ [t1] }, some (s.queue.length + 1)) ∧
       (arrive t2 (arrive t1 s).1).2 = some (s.queue.length + 2)) ∧
    (t.closed = false → tid ∈ running →
       completeTask tid { active := 3, queue := t :: rest, running := running } =
         { active := 3, queue := rest, running := t.tid :: running.erase tid }) := by
  refine ⟨runAdm_active_le_aux evs _ (by simp [MAX_CONCURRENCY]), ?_, ?_⟩
  · intro h3
    have hfull : MAX_CONCURRENCY ≤ s.active := by simp [MAX_CONCURRENCY, h3]
    constructor
    · simp [arrive, hfull]
    · have hfull2 : MAX_CONCURRENCY ≤ ((arrive t1 s).1).active := by
        simp [arrive, hfull]
      simp [arrive, hfull, hfull2]
  · intro hc hr
    simp only [completeTask, hr, if_pos]
    simp [processQueue, processQueueAux, MAX_CONCURRENCY, hc]

/-- Concrete instance of `admissionQueue_spec`: three active tasks, a fourth
and fifth arrival get queue positions 1 and 2, and a completion starts the
queued head. -/
theorem admissionQueue_spec_witness :
    (runAdm [AdmEvent.arriveEv 1 false, AdmEvent.arriveEv 2 false,
             AdmEvent.arriveEv 3 false, AdmEvent.arriveEv 4 false]).active ≤ 3 ∧
    arrive (Ticket.mk 4 false) (AdmState.mk 3 [] [3, 2, 1]) =
      (AdmState.mk 3 [Ticket.mk 4 false] [3, 2, 1], some 1) ∧
    (arrive (Ticket.mk 5 false)
       (arrive (Ticket.mk 4 false) (AdmState.mk 3 [] [3, 2, 1])).1).2 = some 2 ∧
    completeTask 1 (AdmState.mk 3 [Ticket.mk 4 false] [3, 2, 1]) =
      AdmState.mk 3 [] [4, 3, 2] :=
  by
    have h := admissionQueue_spec
      [AdmEvent.arriveEv 1 false, AdmEvent.arriveEv 2 false,
       AdmEvent.arriveEv 3 false, AdmEvent.arriveEv 4 false]
      (AdmState.mk 3 [] [3, 2, 1]) (Ticket.mk 4 false) (Ticket.mk 5 false)
      1 (Ticket.mk 4 false) [] [3, 2, 1]
    refine ⟨h.1, ?_, ?_, ?_⟩
    · exact (h.2.1 rfl).1
    · exact (h.2.1 rfl).2
    · have := h.2.2 rfl (by decide)
      simpa using this

/-! ### C5: queued requests whose caller disconnected are skipped -/

/-- Safety predicate for one request identity: it is not running, and every
queue entry carrying it is marked closed. -/
def SafeFor (tid : Nat) (s : AdmState) : Prop :=
  tid ∉ s.running ∧ ∀ t ∈ s.queue, t.tid = tid → t.closed = true

theorem processQueueAux_safe (tid : Nat) :
    ∀ (q : List Ticket) (active : Nat) (running : List Nat),
      tid ∉ running → (∀ t ∈ q, t.tid = tid → t.closed = true) →
      SafeFor tid (processQueueAux active running q) := by
  intro q
  induction q with
  | nil => intro active running hr hq; exact ⟨by simpa [processQueueAux] using hr, by simp [processQueueAux]⟩
  | cons t rest ih =>
    intro active running hr hq
    by_cases hlt : active < MAX_CONCURRENCY
    · by_cases hc : t.closed
      · simp only [processQueueAux, hlt, if_pos, hc, ite_true]
        exact ih active running hr (fun u hu => hq u (List.mem_cons_of_mem t hu))
      · simp only [processQueueAux, hlt, if_pos, hc, Bool.false_eq_true, ite_false]
        refine ⟨?_, ?_⟩
        · intro hmem
          rcases List.mem_cons.mp hmem with hmem | hmem
          · have := hq t (List.mem_cons_self t rest) hmem.symm
            simp [this] at hc
          · exact hr hmem
        · intro u hu
          exact hq u (List.mem_cons_of_mem t hu)
    · simp only [processQueueAux, hlt, ite_false]
      exact ⟨hr, hq⟩

theorem applyAdmEvent_safe (tid : Nat) (s : AdmState) (e : AdmEvent)
    (hsafe : SafeFor tid s) (hne : isArriveOf tid e = false) :
    SafeFor tid (applyAdmEvent s e) := by
  obtain ⟨hr, hq⟩ := hsafe
  cases e with
  | arriveEv tid' c =>
    have htid : tid' ≠ tid := by simpa [isArriveOf] using hne
    by_cases hfull : MAX_CONCURRENCY ≤ s.active
    · simp only [applyAdmEvent, arrive, hfull, if_pos]
      refine ⟨hr, ?_⟩
      intro t ht hteq
      rcases List.mem_append.mp ht with ht | ht
      · exact hq t ht hteq
      · simp at ht
        rw [ht] at hteq
        exact absurd hteq htid
    · simp only [applyAdmEvent, arrive, hfull, ite_false, startScraping]
      by_cases hc : c
      · subst hc
        simp only [ite_true]
        exact processQueueAux_safe tid s.queue s.active s.running hr hq
      · simp only [Bool.not_eq_true] at hc
        subst hc
        simp only [Bool.false_eq_true, ite_false]
        refine ⟨?_, hq⟩
        intro hmem
        rcases List.mem_cons.mp hmem with hmem | hmem
        · exact htid hmem.symm
        · exact hr hmem
  | completeEv tid' =>
    by_cases hmem : tid' ∈ s.running
    · simp only [applyAdmEvent, completeTask, hmem, if_pos]
      apply processQueueAux_safe tid s.queue (s.active - 1) (s.running.erase tid')
      · intro habs
        exact hr (List.mem_of_mem_erase habs)
      · exact hq
    · simpa [applyAdmEvent, completeTask, hmem] using ⟨hr, hq⟩
  | disconnectEv tid' =>
    simp only [applyAdmEvent, disconnectTicket]
    refine ⟨hr, ?_⟩
    intro t ht hteq
    rcases List.mem_map.mp ht with ⟨u, hu, hut⟩
    by_cases h' : u.tid = tid'
    · rw [← hut]
      simp [h']
    · rw [← hut] at hteq ⊢
      simp only [h', ite_false] at hteq ⊢
      exact hq u hu hteq

theorem foldl_safe (tid : Nat) :
    ∀ (evs : List AdmEvent) (s : AdmState), SafeFor tid s →
      (∀ e ∈ evs, isArriveOf tid e = false) →
      SafeFor tid (evs.foldl applyAdmEvent s) := by
  intro evs
  induction evs with
  | nil => intro s h _; simpa using h
  | cons e rest ih =>
    intro s h hne
    simp only [List.foldl_cons]
    exact ih (applyAdmEvent s e)
      (applyAdmEvent_safe tid s e h (hne e (List.mem_cons_self e rest)))
      (fun e' he' => hne e' (List.mem_cons_of_mem e he'))

/-- C5.  (i) A queued thunk whose caller already disconnected is shifted and
discarded without incrementing the active count, immediately handing
control to the next queued entry.  (ii) A request that sits in the queue
marked closed and is not running never begins execution: across any
further events that do not enqueue the same identity again, it never appears
among the running tasks. -/
theorem queuedDisconnect_spec (active : Nat) (running : List Nat)
    (c : Ticket) (rest : List Ticket) (evs1 evs2 : List AdmEvent) (tid : Nat) :
    (active < 3 → c.closed = true →
       processQueueAux active running (c :: rest) = processQueueAux active running rest) ∧
    ((∀ t ∈ (runAdm evs1).queue, t.tid = tid → t.closed = true) →
     tid ∉ (runAdm evs1).running →
     (∀ e ∈ evs2, isArriveOf tid e = false) →
     tid ∉ (runAdm (evs1 ++ evs2)).running) := by
  constructor
  · intro hlt hc
    simp [processQueueAux, MAX_CONCURRENCY, hlt, hc]
  · intro hq hr hne
    have hsafe : SafeFor tid (runAdm evs1) := ⟨hr, hq⟩
    have := foldl_safe tid evs2 (runAdm evs1) hsafe hne
    rw [runAdm, List.foldl_append]
    exact this.1

/-- Concrete instance of `queuedDisconnect_spec`: request 4 queues behind a
full house, disconnects, and is skipped when a slot frees; requests 4 and
5 both queued, 4 disconnected: the completion starts 5, not 4. -/
theorem queuedDisconnect_spec_witness :
    processQueueAux 2 [3, 2] [Ticket.mk 4 true, Ticket.mk 5 false] =
      processQueueAux 2 [3, 2] [Ticket.mk 5 false] ∧
    4 ∉ (runAdm
          ([AdmEvent.arriveEv 1 false, AdmEvent.arriveEv 2 false,
            AdmEvent.arriveEv 3 false, AdmEvent.arriveEv 4 false,
            AdmEvent.arriveEv 5 false, AdmEvent.disconnectEv 4] ++
           [AdmEvent.completeEv 1, AdmEvent.completeEv 2])).running :=
  ⟨(queuedDisconnect_spec 2 [3, 2] (Ticket.mk 4 true) [Ticket.mk 5 false]
      [] [] 4).1 (by decide) (by decide),
   (queuedDisconnect_spec 2 [3, 2] (Ticket.mk 4 true) [Ticket.mk 5 false]
      [AdmEvent.arriveEv 1 false, AdmEvent.arriveEv 2 false,
       AdmEvent.arriveEv 3 false, AdmEvent.arriveEv 4 false,
       AdmEvent.arriveEv 5 false, AdmEvent.disconnectEv 4]
      [AdmEvent.completeEv 1, AdmEvent.completeEv 2] 4).2
     (by decide) (by decide) (by decide)⟩

/-! ## Durable progress sink and per-record retry (`processNextJob`,
worker variant carried in `src/utils/text.ts` lines 69-218) -/

/-- JavaScript `toLowerCase` restricted to the ASCII step names the worker
passes. -/
def lowerAscii (s : String) : String :=
  String.mk (s.data.map Char.toLower)

/-- The worker's `addLog` type mapping: scraper step names are lowered and
folded onto the four frontend categories. -/
def mapLogType (ty : String) : String :=
  let lt := lowerAscii ty
  if ["processing", "init", "navigate", "login", "analyzing", "cleanup"].contains lt
  then "info"
  else if ["found", "exam_done", "done"].contains lt then "success"
  else lt

/-- The in-memory `state : LogsData` of one job run, together with counters
for the outward-visible effects: `persists` counts writes of the
progress payload (`updateJobProgress` / `completeJob` / `failJob`),
`saveAttempts` counts `saveScrapedQuestion` invocations, and `delays`
counts backoff sleeps between insert attempts. -/
structure JobRunState where
  found : Nat
  imported : Nat
  skipped : Nat
  xp : Nat
  logTypes : List String
  persists : Nat
  saveAttempts : Nat
  delays : Nat
deriving DecidableEq, Repr

def initRunState : JobRunState :=
  { found := 0, imported := 0, skipped := 0, xp := 0, logTypes := [],
    persists := 0, saveAttempts := 0, delays := 0 }

/-- Model of `addLog(msg, type)`: push one entry with the mapped type. -/
def addLog (ty : String) (s : JobRunState) : JobRunState :=
  { s with logTypes := s.logTypes ++ [mapLogType ty] }

/-- One `updateJobProgress` (or terminal `completeJob` / `failJob`) write of
the progress payload. -/
def persistWrite (s : JobRunState) : JobRunState :=
  { s with persists := s.persists + 1 }

/-- The `onStatus` callback (text.ts lines 131-139): log the message, bump
`skipped` on a SKIPPED step, and persist the progress payload on every
status event. -/
def onStatusEvent (step : String) (s : JobRunState) : JobRunState :=
  let s1 := addLog step s
  let s2 := if step = "SKIPPED" then { s1 with skipped := s1.skipped + 1 } else s1
  persistWrite s2

/-- The `while (dbRetries < maxDbRetries)` insert loop (text.ts lines
151-166), for an insert that deterministically fails on its first
`failsFirst` attempts.  `budget` is `maxDbRetries - dbRetries`.  Returns
(attempts made, delays slept, success). -/
def dbRetryGo (failsFirst : Nat) : Nat → Nat → Nat → Nat × Nat × Bool
  | 0, a, d => (a, d, false)
  | budget + 1, a, d =>
    if failsFirst < a + 1 then (a + 1, d, true)
    else if budget = 0 then (a + 1, d, false)
    else dbRetryGo failsFirst budget (a + 1) (d + 1)

/-- The insert loop entered with `dbRetries = 0`, `maxDbRetries = 3`. -/
def dbRetry (failsFirst : Nat) : Nat × Nat × Bool :=
  dbRetryGo failsFirst 3 0 0

/-- The `onQuestion` callback (text.ts lines 140-182): run the insert retry
loop; on success bump `found`/`imported`/`xp`, log a success entry, and
persist only when the cumulative `found` is a multiple of 2; when all
attempts fail, the surrounding `catch` logs an error entry for the record
and returns normally. -/
def onQuestionEvent (failsFirst : Nat) (s : JobRunState) : JobRunState :=
  let r := dbRetry failsFirst
  let s0 := { s with saveAttempts := s.saveAttempts + r.1, delays := s.delays + r.2.1 }
  if r.2.2 then
    let s1 := { s0 with found := s0.found + 1, imported := s0.imported + 1,
                        xp := s0.xp + 10 }
    let s2 := addLog "success" s1
    if s2.found % 2 = 0 then persistWrite s2 else s2
  else
    addLog "error" s0

/-- The `onExamDone` callback (text.ts lines 183-187): record the exam in
the scrape history (outside this state), log, and persist immediately. -/
def onExamDoneEvent (s : JobRunState) : JobRunState :=
  persistWrite (addLog "success" s)

inductive RunEvent where
  | statusEv (step : String)
  | questionEv (failsFirst : Nat)
  | examDoneEv
deriving DecidableEq, Repr

def applyRunEvent (s : JobRunState) (e : RunEvent) : JobRunState :=
  match e with
  | RunEvent.statusEv st => onStatusEvent st s
  | RunEvent.questionEv k => onQuestionEvent k s
  | RunEvent.examDoneEv => onExamDoneEvent s

/-- One whole `processNextJob` body after the job is locked: the opening log
plus initial save, the scrape callbacks in order, then the terminal
branch — `completeJob` after a clean return, `failJob` after a thrown
error — each persisting the final payload. -/
def runJob (evs : List RunEvent) (scrapeOk : Bool) : JobRunState × JobStatus :=
  let s0 := persistWrite (addLog "info" initRunState)
  let s1 := evs.foldl applyRunEvent s0
  if scrapeOk then (persistWrite (addLog "success" s1), JobStatus.completed)
  else (persistWrite (addLog "error" s1), JobStatus.failed)

theorem dbRetry_success (k : Nat) (hk : k < 3) : dbRetry k = (k + 1, k, true) := by
  interval_cases k <;> simp [dbRetry, dbRetryGo]

theorem dbRetry_failure (k : Nat) (hk : 3 ≤ k) : dbRetry k = (3, 2, false) := by
  have h1 : ¬ k < 1 := by omega
  have h2 : ¬ k < 2 := by omega
  have h3 : ¬ k < 3 := by omega
  simp [dbRetry, dbRetryGo, h1, h2, h3]

/-- C8.  In the durable sink: every status event persists the progress
payload; a successfully saved record persists it exactly when the bumped
`found` counter is even; unit completion persists it; and the terminal
step always persists the final payload and sets the matching terminal
status. -/
theorem durableSink_spec (step : String) (k : Nat) (s : JobRunState)
    (evs : List RunEvent) (ok : Bool) :
    (onStatusEvent step s).persists = s.persists + 1 ∧
    (k < 3 → (onQuestionEvent k s).persists =
       s.persists + (if (s.found + 1) % 2 = 0 then 1 else 0)) ∧
    (onExamDoneEvent s).persists = s.persists + 1 ∧
    (runJob evs ok).1.persists =
      (evs.foldl applyRunEvent (persistWrite (addLog "info" initRunState))).persists + 1 ∧
    (runJob evs ok).2 = (if ok then JobStatus.completed else JobStatus.failed) := by
  refine ⟨?_, ?_, ?_, ?_, ?_⟩
  · by_cases hs : step = "SKIPPED" <;> simp [onStatusEvent, addLog, persistWrite, hs]
  · intro hk
    rw [show onQuestionEvent k s = onQuestionEvent k s from rfl]
    unfold onQuestionEvent
    rw [dbRetry_success k hk]
    by_cases hpar : (s.found + 1) % 2 = 0
    · simp [addLog, persistWrite, hpar]
    · simp [addLog, persistWrite, hpar]
  · simp [onExamDoneEvent, addLog, persistWrite]
  · cases ok <;> simp [runJob, addLog, persistWrite]
  · cases ok <;> simp [runJob]

/-- Concrete instance of `durableSink_spec`: two clean records, the first
not persisted, the second persisted; status events always persisted. -/
theorem durableSink_spec_witness :
    (onQuestionEvent 0 (persistWrite (addLog "info" initRunState))).persists = 1 ∧
    (onQuestionEvent 0
       (onQuestionEvent 0 (persistWrite (addLog "info" initRunState)))).persists = 2 ∧
    (onStatusEvent "PROCESSING"
       (persistWrite (addLog "info" initRunState))).persists = 2 :=
  ⟨by
    have h := (durableSink_spec "PROCESSING" 0
      (persistWrite (addLog "info" initRunState)) [] true).2.1 (by decide)
    simpa using h,
   by
    have h := (durableSink_spec "PROCESSING" 0
      (onQuestionEvent 0 (persistWrite (addLog "info" initRunState))) [] true).2.1
      (by decide)
    rw [h]
    decide,
   by
    have h := (durableSink_spec "PROCESSING" 0
      (persistWrite (addLog "info" initRunState)) [] true).1
    simpa using h⟩

/-- C9.  The business-record insert is retried up to 3 total attempts with a
backoff sleep between consecutive attempts (`k` failures cost `k` sleeps,
exhaustion costs 2); when all 3 attempts fail the record gets an error
log entry, the metrics and payload writes are untouched for it, and the
run carries on — the job still reaches COMPLETED. -/
theorem persistenceRetry_spec (k : Nat) (s : JobRunState) (evs : List RunEvent) :
    (k < 3 → dbRetry k = (k + 1, k, true)) ∧
    (3 ≤ k →
       dbRetry k = (3, 2, false) ∧
       (onQuestionEvent k s).logTypes = s.logTypes ++ ["error"] ∧
       (onQuestionEvent k s).found = s.found ∧
       (onQuestionEvent k s).imported = s.imported ∧
       (onQuestionEvent k s).persists = s.persists ∧
       (onQuestionEvent k s).saveAttempts = s.saveAttempts + 3 ∧
       (onQuestionEvent k s).delays = s.delays + 2 ∧
       (runJob (RunEvent.questionEv k :: evs) true).2 = JobStatus.completed) := by
  constructor
  · exact dbRetry_success k
  · intro hk
    have hf := dbRetry_failure k hk
    refine ⟨hf, ?_, ?_, ?_, ?_, ?_, ?_, ?_⟩
    · unfold onQuestionEvent
      rw [hf]
      have hm : mapLogType "error" = "error" := by decide
      simp [addLog, hm]
    · unfold onQuestionEvent; rw [hf]; simp [addLog]
    · unfold onQuestionEvent; rw [hf]; simp [addLog]
    · unfold onQuestionEvent; rw [hf]; simp [addLog]
    · unfold onQuestionEvent; rw [hf]; simp [addLog]
    · unfold onQuestionEvent; rw [hf]; simp [addLog]
    · simp [runJob]

/-- Concrete instance of `persistenceRetry_spec`: an insert that always
fails is attempted 3 times with 2 sleeps, logged as an error, and the
run still completes. -/
theorem persistenceRetry_spec_witness :
    dbRetry 5 = (3, 2, false) ∧
    (onQuestionEvent 5 initRunState).logTypes = ["error"] ∧
    (onQuestionEvent 5 initRunState).saveAttempts = 3 ∧
    (runJob [RunEvent.questionEv 5] true).2 = JobStatus.completed :=
  by
    have h := (persistenceRetry_spec 5 initRunState []).2 (by decide)
    refine ⟨h.1, ?_, ?_, h.2.2.2.2.2.2.2⟩
    · simpa using h.2.1
    · simpa using h.2.2.2.2.2.1

/-! ## No outer retry around the extraction run (`processNextJob`) -/

/-- Success of the `i`-th invocation of a step function that fails
deterministically on its first `failsFirst` invocations. -/
def stepOk (failsFirst i : Nat) : Bool := decide (failsFirst < i)

/-- Model of `processNextJob`'s handling of the extraction run (text.ts lines
121-211, likewise worker.ts lines 77-139): `scraper.scrape` is invoked at
exactly one call site with no surrounding loop; a clean return leads to
`completeJob`, a thrown error is caught once and leads to `failJob`.
Returns (number of invocations of the run, resulting job status). -/
def processNextJobOnce (failsFirst : Nat) : Nat × JobStatus :=
  if stepOk failsFirst 1 then (1, JobStatus.completed) else (1, JobStatus.failed)

/-- C2 fails on the code: for a run failing once then succeeding (`k = 1`,
so `k < 3`), the claim predicts overall success after `k + 1 = 2`
invocations, but the worker invokes the run once and marks the job
FAILED. -/
theorem processNextJobOnce_counterexample :
    ¬ ((processNextJobOnce 1).1 = 2 ∧ (processNextJobOnce 1).2 = JobStatus.completed) := by
  decide

/-- C2 as amended: the worker wraps the extraction run in no retry loop —
for every `k` the run is invoked exactly once, succeeding only when the
first invocation succeeds (`k = 0`) and otherwise leaving the job FAILED
after that single invocation. -/
theorem processNextJobOnce_spec (k : Nat) :
    processNextJobOnce k =
      (1, if k = 0 then JobStatus.completed else JobStatus.failed) := by
  cases k with
  | zero => decide
  | succ n => simp [processNextJobOnce, stepOk]

/-! ## Text utilities (`src/utils/text.ts` lines 1-28)

Strings are `List Char`; the regex passes of
`extractCleanTextFromMarkdown` are executable scanners with JavaScript
left-to-right, lazy-quantifier semantics.  Where a pass needs to resume
after a match (a non-structural tail) it carries a fuel argument; the
wrappers pass `length + 1`, which one-char-per-call progress never
exhausts. -/

/-- JavaScript `\s` for the character range these inputs use: space, tab,
line feed, vertical tab, form feed, carriage return and no-break space. -/
def isWsJs (c : Char) : Bool :=
  c = ' ' || c = '\t' || c = '\n' || c = '\r' ||
  c = Char.ofNat 11 || c = Char.ofNat 12 || c = Char.ofNat 160

/-- Pass `.replace(/\s+/g, ' ')`: each maximal whitespace run becomes one
space. -/
def collapseWsF : Nat → List Char → List Char
  | 0, cs => cs
  | _, [] => []
  | fuel + 1, c :: cs =>
    if isWsJs c then ' ' :: collapseWsF fuel (cs.dropWhile isWsJs)
    else c :: collapseWsF fuel cs

def collapseWs (cs : List Char) : List Char := collapseWsF (cs.length + 1) cs

/-- Pass `.trim()`. -/
def trimWs (cs : List Char) : List Char :=
  ((cs.dropWhile isWsJs).reverse.dropWhile isWsJs).reverse

/-- Lazy `.*?\)` after an opening parenthesis: the shortest split
`input = b ++ ')' :: rest` whose `b` crosses no newline. -/
def splitAtParen : List Char → Option (List Char × List Char)
  | [] => none
  | c :: cs =>
    if c = ')' then some ([], cs)
    else if c = '\n' then none
    else (splitAtParen cs).map (fun p => (c :: p.1, p.2))

/-- Lazy `.*?\]\(.*?\)` after an opening bracket: the leftmost-minimal
expansion of the first lazy group such that a `](`, then a closing `)`
reachable without a newline, completes the match; on a dead `](` the
engine backtracks past it.  Returns (first group, second group, rest). -/
def splitAtBrkParen : List Char → Option (List Char × List Char × List Char)
  | [] => none
  | c :: cs =>
    if c = ']' then
      match cs with
      | '(' :: tail =>
        match splitAtParen tail with
        | some (b, rest) => some ([], b, rest)
        | none => (splitAtBrkParen cs).map (fun p => (c :: p.1, p.2.1, p.2.2))
      | _ => (splitAtBrkParen cs).map (fun p => (c :: p.1, p.2.1, p.2.2))
    else if c = '\n' then none
    else (splitAtBrkParen cs).map (fun p => (c :: p.1, p.2.1, p.2.2))

/-- Pass `.replace(/!\[.*?\]\(.*?\)/g, '')`: markdown images removed. -/
def removeImagesF : Nat → List Char → List Char
  | 0, cs => cs
  | _, [] => []
  | fuel + 1, c :: cs =>
    if c = '!' then
      match cs with
      | '[' :: tail =>
        match splitAtBrkParen tail with
        | some (_, _, rest) => removeImagesF fuel rest
        | none => c :: removeImagesF fuel cs
      | _ => c :: removeImagesF fuel cs
    else c :: removeImagesF fuel cs

/-- Pass `.replace(/\[(.*?)\]\(.*?\)/g, '$1')`: markdown links replaced by their
text. -/
def replaceLinksF : Nat → List Char → List Char
  | 0, cs => cs
  | _, [] => []
  | fuel + 1, c :: cs =>
    if c = '[' then
      match splitAtBrkParen cs with
      | some (a, _, rest) => a ++ replaceLinksF fuel rest
      | none => c :: replaceLinksF fuel cs
    else c :: replaceLinksF fuel cs

/-- The markup character class of `.replace(/[#>*_`~\-]/g, '')`. -/
def isMarkupChar (c : Char) : Bool :=
  c = '#' || c = '>' || c = '*' || c = '_' || c = Char.ofNat 96 ||
  c = '~' || c = '-'

def removeMarkupChars (cs : List Char) : List Char :=
  cs.filter (fun c => !(isMarkupChar c))

/-- Model of `extractCleanTextFromMarkdown` (text.ts lines 1-8). -/
def extractCleanTextFromMarkdown (cs : List Char) : List Char :=
  let t1 := removeImagesF (cs.length + 1) cs
  let t2 := replaceLinksF (t1.length + 1) t1
  trimWs (collapseWs (removeMarkupChars t2))

/-- Model of `title.lastIndexOf(' ')`, as an optional index: the largest index that
holds a space. -/
def lastSpaceIdx (cs : List Char) : Option Nat :=
  (cs.reverse.findIdx? (fun c => c = ' ')).map (fun j => cs.length - 1 - j)

def ellipsisChars : List Char := ['.', '.', '.']

/-- Model of `generateTitle` (text.ts lines 14-28): cut the cleaned text at 150
characters; when it was longer, back up to the last space (when one sits
at a positive index) and append an ellipsis. -/
def generateTitle (statement : List Char) : List Char :=
  let cleanText := extractCleanTextFromMarkdown statement
  let title := cleanText.take 150
  if 150 < cleanText.length then
    match lastSpaceIdx title with
    | some i => if 0 < i then title.take i ++ ellipsisChars else title ++ ellipsisChars
    | none => title ++ ellipsisChars
  else title

theorem lastSpaceIdx_le {l : List Char} {i : Nat}
    (h : lastSpaceIdx l = some i) : i ≤ l.length - 1 := by
  unfold lastSpaceIdx at h
  cases hf : l.reverse.findIdx? (fun c => c = ' ') with
  | none => rw [hf] at h; cases h
  | some j =>
    rw [hf] at h
    simp at h
    omega

/-- C10.  `generateTitle` always returns at most 153 characters, and returns
the markdown-cleaned text itself, with no ellipsis, whenever that text is
at most 150 characters long. -/
theorem generateTitle_spec (s : List Char) :
    (generateTitle s).length ≤ 153 ∧
    ((extractCleanTextFromMarkdown s).length ≤ 150 →
       generateTitle s = extractCleanTextFromMarkdown s) := by
  by_cases h : 150 < (extractCleanTextFromMarkdown s).length
  · constructor
    · unfold generateTitle
      simp only [h, if_pos]
      have hlen : ((extractCleanTextFromMarkdown s).take 150).length = 150 := by
        rw [List.length_take]
        omega
      cases hls : lastSpaceIdx ((extractCleanTextFromMarkdown s).take 150) with
      | none => simp [ellipsisChars, hlen]
      | some i =>
        have hi : i ≤ 149 := by
          have := lastSpaceIdx_le hls
          omega
        by_cases h0 : 0 < i
        · simp only [h0, if_pos]
          rw [List.length_append, List.length_take, hlen]
          simp only [ellipsisChars, List.length_cons, List.length_nil]
          omega
        · simp [h0, ellipsisChars, hlen]
    · intro hle
      omega
  · have hle : (extractCleanTextFromMarkdown s).length ≤ 150 := Nat.le_of_not_lt h
    have ht : (extractCleanTextFromMarkdown s).take 150 = extractCleanTextFromMarkdown s :=
      List.take_of_length_le hle
    constructor
    · unfold generateTitle
      simp only [h, ite_false, ht]
      omega
    · intro _
      unfold generateTitle
      simp only [h, ite_false, ht]

/-- Concrete instance of `generateTitle_spec`: a short markdown statement is
cleaned and returned whole. -/
theorem generateTitle_spec_witness :
    generateTitle "# Ola *mundo* [link](http://x) ![img](y)".data =
      extractCleanTextFromMarkdown "# Ola *mundo* [link](http://x) ![img](y)".data :=
  (generateTitle_spec "# Ola *mundo* [link](http://x) ![img](y)".data).2 (by decide)

/-! ## Alternatives parsing (`scraper.ts` lines 371-479, the
`.col-md-5` evaluate block) -/

/-- Test that `pat` is a leading piece of `cs`. -/
def litAt : List Char → List Char → Bool
  | [], _ => true
  | _ :: _, [] => false
  | p :: ps, c :: cs => p == c && litAt ps cs

/-- Model of `String.indexOf` of a literal pattern: index of its first occurrence. -/
def findLitIdx (pat : List Char) : Nat → List Char → Option Nat
  | 0, _ => none
  | _ + 1, [] => if litAt pat [] then some 0 else none
  | fuel + 1, c :: cs =>
    if litAt pat (c :: cs) then some 0
    else (findLitIdx pat fuel cs).map Nat.succ

/-- Model of `String.includes` of a literal pattern. -/
def containsLit (pat : List Char) (cs : List Char) : Bool :=
  (findLitIdx pat (cs.length + 1) cs).isSome

/-- Global replace of a literal pattern by the empty string:
non-overlapping matches, left to right. -/
def removeAllLit (pat : List Char) : Nat → List Char → List Char
  | 0, cs => cs
  | _, [] => []
  | fuel + 1, c :: cs =>
    if litAt pat (c :: cs) then removeAllLit pat fuel ((c :: cs).drop pat.length)
    else c :: removeAllLit pat fuel cs

/-- Pass `.replace(/Justificativa sobre todas as alternativas.*/g, '')`: the
literal plus the remainder of its line is removed (`.` stops at a line
feed). -/
def removeJustTail (pat : List Char) : Nat → List Char → List Char
  | 0, cs => cs
  | _, [] => []
  | fuel + 1, c :: cs =>
    if litAt pat (c :: cs) then
      removeJustTail pat fuel
        (((c :: cs).drop pat.length).dropWhile (fun ch => ch != '\n'))
    else c :: removeJustTail pat fuel cs

/-- The character class `[A-E]`. -/
def isOptLetter (c : Char) : Bool :=
  c == 'A' || c == 'B' || c == 'C' || c == 'D' || c == 'E'

/-- The lookahead `(?=(?:[A-E]\))|$)` at a non-empty position. -/
def lookaheadOpt : List Char → Bool
  | a :: b :: _ => isOptLetter a && b == ')'
  | _ => false

/-- Growth of the lazy `[\s\S]+?` beyond its first character: stop as soon
as the lookahead (or the end of input) is reached. -/
def lazyContentGo : List Char → List Char × List Char
  | [] => ([], [])
  | c :: cs =>
    if lookaheadOpt (c :: cs) then ([], c :: cs)
    else
      let p := lazyContentGo cs
      (c :: p.1, p.2)

/-- The full lazy `[\s\S]+?` up to the lookahead: at least one character. -/
def lazyContent : List Char → List Char × List Char
  | [] => ([], [])
  | c :: cs =>
    let p := lazyContentGo cs
    (c :: p.1, p.2)

/-- The `optionsRegex` exec loop
(`/([A-E])\)\s+([\s\S]+?)(?=(?:[A-E]\))|$)/g`): at each position try
letter, `)`, a greedy non-empty whitespace run, then lazy content up to
the next `X)` or the end; scanning resumes at the lookahead position.
When nothing follows the whitespace run, `\s+` backtracks one character
into the content (so a match needs at least two characters there).
Returns the (letter, raw content) captures in order. -/
def findOptions : Nat → List Char → List (Char × List Char)
  | 0, _ => []
  | _, [] => []
  | fuel + 1, c :: cs =>
    if isOptLetter c then
      match cs with
      | ')' :: cs2 =>
        let ws := cs2.takeWhile isWsJs
        let rem := cs2.dropWhile isWsJs
        if ws.isEmpty then findOptions fuel cs
        else
          match rem with
          | [] =>
            if 2 ≤ ws.length then [(c, ws.drop (ws.length - 1))]
            else findOptions fuel cs
          | r :: rs =>
            let p := lazyContent (r :: rs)
            (c, p.1) :: findOptions fuel p.2
      | _ => findOptions fuel cs
    else findOptions fuel cs

/-- The in-page `cleanText` helper: `t.replace(/\s+/g, ' ').trim()`. -/
def cleanTextJs (cs : List Char) : List Char := trimWs (collapseWs cs)

def semanaLit : List Char := "Semana:".data

/-- One entry of the `results` array built by the options loop. -/
structure AltResult where
  letter : Char
  content : List Char
  isCorrect : Bool
  isSelected : Bool
deriving DecidableEq, Repr

/-- One alternative as pushed into `results`: clean the captured text, cut
alternative E at the first `Semana:` metadata marker, and flag
correctness/selection against the detected letters. -/
def mkAlt (corr sel : Option Char) (p : Char × List Char) : AltResult :=
  let t0 := cleanTextJs p.2
  let text :=
    if p.1 = 'E' then
      match findLitIdx semanaLit (t0.length + 1) t0 with
      | some i => trimWs (t0.take i)
      | none => t0
    else t0
  { letter := p.1, content := text,
    isCorrect := decide (corr = some p.1),
    isSelected := decide (sel = some p.1) }

/-- One `span` node of the block: its inline `style` attribute and its
`innerText`. -/
structure SpanNode where
  style : List Char
  text : List Char
deriving DecidableEq, Repr

/-- The official-correct visual cue: green inline style or the word
CORRETA. -/
def greenCue (sp : SpanNode) : Bool :=
  containsLit "#00a000".data sp.style || containsLit "CORRETA".data sp.text

/-- The wrong-answer visual cue: red inline style or the word ERRADA. -/
def redCue (sp : SpanNode) : Bool :=
  containsLit "#ff0000".data sp.style || containsLit "ERRADA".data sp.text

/-- First match of `/([A-E])\)/` in a span's text. -/
def firstLetterParen : List Char → Option Char
  | a :: b :: rest =>
    if isOptLetter a && b == ')' then some a else firstLetterParen (b :: rest)
  | _ => none

/-- One iteration of the `spans.forEach` scan: a green-cued span carrying a
letter overwrites `correctLetter`, a red-cued one overwrites
`selectedLetter`. -/
def scanSpanStep (acc : Option Char × Option Char) (sp : SpanNode) :
    Option Char × Option Char :=
  let c1 :=
    if greenCue sp then
      match firstLetterParen sp.text with
      | some l => some l
      | none => acc.1
    else acc.1
  let c2 :=
    if redCue sp then
      match firstLetterParen sp.text with
      | some l => some l
      | none => acc.2
    else acc.2
  (c1, c2)

def scanSpans (spans : List SpanNode) : Option Char × Option Char :=
  spans.foldl scanSpanStep (none, none)

/-- Model of `if (!selectedLetter && correctLetter) selectedLetter = correctLetter`. -/
def resolveSelected (corr sel : Option Char) : Option Char :=
  match sel, corr with
  | none, some c => some c
  | s, _ => s

/-- The data the evaluate block reads from the `.col-md-5` container: its
span nodes and its `innerText`. -/
structure AltBlock where
  spans : List SpanNode
  innerText : List Char
deriving DecidableEq, Repr

def voceMarcouLit : List Char := "Você marcou a alternativa ERRADA".data
def corretaLit : List Char := "CORRETA".data
def justLit : List Char := "Justificativa sobre todas as alternativas".data

/-- The three replaces applied to the container text before the options
loop. -/
def preprocessFullText (cs : List Char) : List Char :=
  let t1 := removeAllLit voceMarcouLit (cs.length + 1) cs
  let t2 := removeAllLit corretaLit (t1.length + 1) t1
  removeJustTail justLit (t2.length + 1) t2

structure ParsedAlternatives where
  correctLetter : Option Char
  selectedLetter : Option Char
  alternatives : List AltResult
deriving DecidableEq, Repr

/-- The whole evaluate block: detect the two letters from the spans, default
the selected letter to the correct one when no red cue fired, then split
the cleaned container text into alternatives.  (The trailing metadata
regexes of the block are not modelled; no claim mentions them.) -/
def parseAlternatives (blk : AltBlock) : ParsedAlternatives :=
  let scanned := scanSpans blk.spans
  let corr := scanned.1
  let sel := resolveSelected corr scanned.2
  let fullText := preprocessFullText blk.innerText
  { correctLetter := corr, selectedLetter := sel,
    alternatives := (findOptions (fullText.length + 1) fullText).map (mkAlt corr sel) }

/-! ### Lemmas on the span scan -/

theorem scanStep_fst_keep (X : Char) (sp : SpanNode) (acc : Option Char × Option Char)
    (hok : greenCue sp = true →
      firstLetterParen sp.text = none ∨ firstLetterParen sp.text = some X)
    (hacc : acc.1 = some X) : (scanSpanStep acc sp).1 = some X := by
  unfold scanSpanStep
  by_cases hg : greenCue sp
  · cases hf : firstLetterParen sp.text with
    | none => simp [hg, hf, hacc]
    | some l =>
      rcases hok hg with h | h
      · rw [hf] at h; cases h
      · rw [hf] at h
        simp at h
        simp [hg, hf, h]
  · simp [hg, hacc]

theorem scanStep_fst_set (X : Char) (sp : SpanNode) (acc : Option Char × Option Char)
    (hg : greenCue sp = true) (hf : firstLetterParen sp.text = some X) :
    (scanSpanStep acc sp).1 = some X := by
  unfold scanSpanStep
  simp [hg, hf]

theorem scanStep_snd_keep (Y : Char) (sp : SpanNode) (acc : Option Char × Option Char)
    (hok : redCue sp = true →
      firstLetterParen sp.text = none ∨ firstLetterParen sp.text = some Y)
    (hacc : acc.2 = some Y) : (scanSpanStep acc sp).2 = some Y := by
  unfold scanSpanStep
  by_cases hr : redCue sp
  · cases hf : firstLetterParen sp.text with
    | none => simp [hr, hf, hacc]
    | some l =>
      rcases hok hr with h | h
      · rw [hf] at h; cases h
      · rw [hf] at h
        simp at h
        simp [hr, hf, h]
  · simp [hr, hacc]

theorem scanStep_snd_set (Y : Char) (sp : SpanNode) (acc : Option Char × Option Char)
    (hr : redCue sp = true) (hf : firstLetterParen sp.text = some Y) :
    (scanSpanStep acc sp).2 = some Y := by
  unfold scanSpanStep
  simp [hr, hf]

theorem scanFold_fst_keep (X : Char) :
    ∀ (spans : List SpanNode) (acc : Option Char × Option Char),
      (∀ sp ∈ spans, greenCue sp = true →
         firstLetterParen sp.text = none ∨ firstLetterParen sp.text = some X) →
      acc.1 = some X → (spans.foldl scanSpanStep acc).1 = some X := by
  intro spans
  induction spans with
  | nil => intro acc _ hacc; simpa using hacc
  | cons sp rest ih =>
    intro acc hall hacc
    simp only [List.foldl_cons]
    exact ih (scanSpanStep acc sp)
      (fun u hu => hall u (List.mem_cons_of_mem sp hu))
      (scanStep_fst_keep X sp acc (hall sp (List.mem_cons_self sp rest)) hacc)

theorem scanFold_fst_found (X : Char) :
    ∀ (spans : List SpanNode) (acc : Option Char × Option Char),
      (∀ sp ∈ spans, greenCue sp = true →
         firstLetterParen sp.text = none ∨ firstLetterParen sp.text = some X) →
      (∃ sp ∈ spans, greenCue sp = true ∧ firstLetterParen sp.text = some X) →
      (spans.foldl scanSpanStep acc).1 = some X := by
  intro spans
  induction spans with
  | nil => intro acc _ hex; simp at hex
  | cons sp rest ih =>
    intro acc hall hex
    simp only [List.foldl_cons]
    rcases hex with ⟨w, hw, hgw, hfw⟩
    rcases List.mem_cons.mp hw with hws | hws
    · subst hws
      exact scanFold_fst_keep X rest (scanSpanStep acc w)
        (fun u hu => hall u (List.mem_cons_of_mem w hu))
        (scanStep_fst_set X w acc hgw hfw)
    · exact ih (scanSpanStep acc sp)
        (fun u hu => hall u (List.mem_cons_of_mem sp hu))
        ⟨w, hws, hgw, hfw⟩

theorem scanFold_snd_keep (Y : Char) :
    ∀ (spans : List SpanNode) (acc : Option Char × Option Char),
      (∀ sp ∈ spans, redCue sp = true →
         firstLetterParen sp.text = none ∨ firstLetterParen sp.text = some Y) →
      acc.2 = some Y → (spans.foldl scanSpanStep acc).2 = some Y := by
  intro spans
  induction spans with
  | nil => intro acc _ hacc; simpa using hacc
  | cons sp rest ih =>
    intro acc hall hacc
    simp only [List.foldl_cons]
    exact ih (scanSpanStep acc sp)
      (fun u hu => hall u (List.mem_cons_of_mem sp hu))
      (scanStep_snd_keep Y sp acc (hall sp (List.mem_cons_self sp rest)) hacc)

theorem scanFold_snd_found (Y : Char) :
    ∀ (spans : List SpanNode) (acc : Option Char × Option Char),
      (∀ sp ∈ spans, redCue sp = true →
         firstLetterParen sp.text = none ∨ firstLetterParen sp.text = some Y) →
      (∃ sp ∈ spans, redCue sp = true ∧ firstLetterParen sp.text = some Y) →
      (spans.foldl scanSpanStep acc).2 = some Y := by
  intro spans
  induction spans with
  | nil => intro acc _ hex; simp at hex
  | cons sp rest ih =>
    intro acc hall hex
    simp only [List.foldl_cons]
    rcases hex with ⟨w, hw, hrw, hfw⟩
    rcases List.mem_cons.mp hw with hws | hws
    · subst hws
      exact scanFold_snd_keep Y rest (scanSpanStep acc w)
        (fun u hu => hall u (List.mem_cons_of_mem w hu))
        (scanStep_snd_set Y w acc hrw hfw)
    · exact ih (scanSpanStep acc sp)
        (fun u hu => hall u (List.mem_cons_of_mem sp hu))
        ⟨w, hws, hrw, hfw⟩

theorem scanFold_snd_no_red :
    ∀ (spans : List SpanNode) (acc : Option Char × Option Char),
      (∀ sp ∈ spans, redCue sp = false) →
      (spans.foldl scanSpanStep acc).2 = acc.2 := by
  intro spans
  induction spans with
  | nil => intro acc _; simp
  | cons sp rest ih =>
    intro acc hall
    simp only [List.foldl_cons]
    rw [ih (scanSpanStep acc sp) (fun u hu => hall u (List.mem_cons_of_mem sp hu))]
    unfold scanSpanStep
    have := hall sp (List.mem_cons_self sp rest)
    simp [this]

/-- C7.  When the spans of the block carry the official-correct cue on
letter `X` (every green-cued span that names a letter names `X`, at least
one does) and the wrong-answer cue on letter `Y` likewise, the parse
yields `correctLetter = X` and `selectedLetter = Y`, and every parsed
alternative lettered `X` carries `isCorrect = true`.  And when no span
carries the wrong cue, the selected letter defaults to the correct
letter. -/
theorem parseAlternatives_spec (blk : AltBlock) (X Y : Char) :
    (((∀ sp ∈ blk.spans, greenCue sp = true →
         firstLetterParen sp.text = none ∨ firstLetterParen sp.text = some X) ∧
      (∃ sp ∈ blk.spans, greenCue sp = true ∧ firstLetterParen sp.text = some X) ∧
      (∀ sp ∈ blk.spans, redCue sp = true →
         firstLetterParen sp.text = none ∨ firstLetterParen sp.text = some Y) ∧
      (∃ sp ∈ blk.spans, redCue sp = true ∧ firstLetterParen sp.text = some Y)) →
      ((parseAlternatives blk).correctLetter = some X ∧
       (parseAlternatives blk).selectedLetter = some Y ∧
       ∀ a ∈ (parseAlternatives blk).alternatives,
         a.letter = X → a.isCorrect = true)) ∧
    ((∀ sp ∈ blk.spans, redCue sp = false) →
      (parseAlternatives blk).selectedLetter = (parseAlternatives blk).correctLetter) := by
  constructor
  · rintro ⟨hgAll, hgEx, hrAll, hrEx⟩
    have hcorr : (scanSpans blk.spans).1 = some X :=
      scanFold_fst_found X blk.spans (none, none) hgAll hgEx
    have hsel : (scanSpans blk.spans).2 = some Y :=
      scanFold_snd_found Y blk.spans (none, none) hrAll hrEx
    refine ⟨?_, ?_, ?_⟩
    · simp [parseAlternatives, hcorr]
    · simp [parseAlternatives, hcorr, hsel, resolveSelected]
    · intro a ha haX
      simp only [parseAlternatives] at ha
      rcases List.mem_map.mp ha with ⟨p, _, hpa⟩
      have hal : a.letter = p.1 := by rw [← hpa]; rfl
      have : a.isCorrect = decide ((scanSpans blk.spans).1 = some p.1) := by
        rw [← hpa]; rfl
      rw [this, hcorr, ← hal, haX]
      simp
  · intro hnone
    have hsel : (scanSpans blk.spans).2 = none :=
      scanFold_snd_no_red blk.spans (none, none) hnone
    simp only [parseAlternatives]
    rw [hsel]
    cases hcorr : (scanSpans blk.spans).1 with
    | none => simp [resolveSelected]
    | some c => simp [resolveSelected]

/-- Fixture block for `parseAlternatives_spec`: a red-cued span naming C, a
green-cued span naming D. -/
def fixtureBlock : AltBlock :=
  { spans :=
      [SpanNode.mk "color: #ff0000;".data "ERRADA\nC) tres".data,
       SpanNode.mk "color: #00a000;".data "CORRETA\nD) quatro".data],
    innerText :=
      "A) um\nB) dois\nC) tres\nCORRETA\nD) quatro\nE) cinco\nSemana: 3".data }

/-- Concrete instance of `parseAlternatives_spec` on `fixtureBlock`:
`correctLetter = D`, `selectedLetter = C`, and alternative D is flagged
correct. -/
theorem parseAlternatives_spec_witness :
    (parseAlternatives fixtureBlock).correctLetter = some 'D' ∧
    (parseAlternatives fixtureBlock).selectedLetter = some 'C' ∧
    ∀ a ∈ (parseAlternatives fixtureBlock).alternatives,
      a.letter = 'D' → a.isCorrect = true :=
  (parseAlternatives_spec fixtureBlock 'D' 'C').1
    ⟨by decide, by decide, by decide, by decide⟩

end CalcScraper
